import Mathlib

/-!
Verification of the Kanerva Sparse Distributed Memory store
(`src/KanervaSDM.py`) against its specification.

The class `KanervaSDM` is embedded shallowly: NumPy arrays become lists,
the float32 trace accumulators become integers (all arithmetic performed
on them is integer-valued ±1 accumulation), and Python exceptions become
`Except` results tagged with the spec's error taxonomy
(`InvalidConfiguration` / `DimensionMismatch` / `NotBinary`, all raised
as `ValueError` in the source).  The seeded NumPy generator used at
construction is abstracted by passing the drawn `M × N` bit matrix as an
explicit argument.
-/

/-- The spec's error taxonomy (section 7).  In the source every case is a
`ValueError`; the three raise sites are distinguished by their messages. -/
inductive SDMError where
  | invalidConfiguration : SDMError
  | dimensionMismatch : SDMError
  | notBinary : SDMError
deriving DecidableEq, Repr

/-- State of a `KanervaSDM` object: the configured dimensions, the fixed
address table, the mutable trace table and the stored-count.
Field names follow the Python attributes. -/
structure KanervaSDM where
  address_dimension : Nat
  memory_dimension : Nat
  num_locations : Nat
  activation_threshold : Int
  address_matrix : List (List Int)
  memory_matrix : List (List Int)
  memory_count : Nat
deriving DecidableEq, Repr

/-- Elementwise sum of two vectors (`acc + row` on NumPy arrays). -/
def vecAdd (a b : List Int) : List Int :=
  List.zipWith (fun x y => x + y) a b

/-- Hamming distance `np.count_nonzero(row != address)`: number of positions where the two
vectors differ. -/
def hammingDistance (a b : List Int) : Nat :=
  List.countP (fun p => decide (p.1 ≠ p.2)) (a.zip b)

/-- Holds when `vector` contains only 0s and 1s (`np.all(np.isin(vector, [0, 1]))`). -/
def isBinaryList (v : List Int) : Bool :=
  v.all (fun b => b == 0 || b == 1)

/-- Models `KanervaSDM._validate__vector`: shape is checked first
(`DimensionMismatch`), then binary content (`NotBinary`);
`none` means the vector passed validation. -/
def validate_vector (v : List Int) (expected_dimension : Nat) : Option SDMError :=
  if v.length ≠ expected_dimension then some .dimensionMismatch
  else if ¬ isBinaryList v then some .notBinary
  else none

/-- Models `KanervaSDM.__init__`.  The seeded generator is abstracted:
`drawn_address_matrix` stands for the `M × N` bit matrix
`rng.integers(0, 2, size=(M, N))` draws. -/
def KanervaSDM.mkStore (address_dimension memory_dimension num_locations
    activation_threshold : Int) (drawn_address_matrix : List (List Int)) :
    Except SDMError KanervaSDM :=
  if address_dimension ≤ 0 ∨ memory_dimension ≤ 0 ∨ num_locations ≤ 0 then
    .error .invalidConfiguration
  else if activation_threshold < 0 then
    .error .invalidConfiguration
  else
    .ok
      { address_dimension := address_dimension.toNat
        memory_dimension := memory_dimension.toNat
        num_locations := num_locations.toNat
        activation_threshold := activation_threshold
        address_matrix := drawn_address_matrix
        memory_matrix :=
          List.replicate num_locations.toNat
            (List.replicate memory_dimension.toNat 0)
        memory_count := 0 }

/-- Models `KanervaSDM._get_activated_locations`: the indices of the hard
locations whose address row is within Hamming distance
`activation_threshold` of the query address. -/
def KanervaSDM.activatedLocations (s : KanervaSDM) (address : List Int) :
    List Nat :=
  (List.range s.address_matrix.length).filter
    (fun i =>
      (hammingDistance (s.address_matrix.getD i []) address : Int)
        ≤ s.activation_threshold)

/-- Models `memory_matrix[activated_locations] += polar_memory`: add `polar` to
every row whose index (counting from `idx`) is in `act`; the indices
`np.where` returns are distinct, so each activated row is updated once. -/
def addToRows (rows : List (List Int)) (act : List Nat) (polar : List Int)
    (idx : Nat) : List (List Int) :=
  match rows with
  | [] => []
  | r :: rs =>
      (if idx ∈ act then vecAdd r polar else r)
        :: addToRows rs act polar (idx + 1)

/-- Models `KanervaSDM.write`: validate both vectors, convert the memory
vector to polar {-1,+1} encoding, accumulate it into every activated trace
row, and increment the stored-count. -/
def KanervaSDM.write (s : KanervaSDM) (address memory : List Int) :
    Except SDMError KanervaSDM :=
  match validate_vector address s.address_dimension with
  | some e => .error e
  | none =>
    match validate_vector memory s.memory_dimension with
    | some e => .error e
    | none =>
      let activated_locations := s.activatedLocations address
      let polar_memory := memory.map (fun b => 2 * b - 1)
      .ok
        { s with
          memory_matrix :=
            addToRows s.memory_matrix activated_locations polar_memory 0
          memory_count := s.memory_count + 1 }

/-- Models `KanervaSDM.read`: validate the address, return the all-zero
vector if no location activates, otherwise sum the activated trace rows
elementwise and threshold every entry at zero (`locations_sum >= 0`). -/
def KanervaSDM.read (s : KanervaSDM) (address : List Int) :
    Except SDMError (List Int) :=
  match validate_vector address s.address_dimension with
  | some e => .error e
  | none =>
    let activated_locations := s.activatedLocations address
    if activated_locations.isEmpty then
      .ok (List.replicate s.memory_dimension 0)
    else
      let locations_sum :=
        activated_locations.foldl
          (fun acc i => vecAdd acc (s.memory_matrix.getD i []))
          (List.replicate s.memory_dimension 0)
      .ok (locations_sum.map (fun v => if 0 ≤ v then (1 : Int) else 0))

/-- Models `KanervaSDM.erase_memory`: zero every trace entry in place
(`memory_matrix.fill(0)`), reset the stored-count, leave the address
table untouched. -/
def KanervaSDM.erase_memory (s : KanervaSDM) : KanervaSDM :=
  { s with
    memory_matrix := s.memory_matrix.map (fun row => row.map (fun _ => (0 : Int)))
    memory_count := 0 }

/-- Shape invariant every constructed store satisfies: both tables have
`num_locations` rows, address rows have length `address_dimension` and
trace rows length `memory_dimension`. -/
def KanervaSDM.WF (s : KanervaSDM) : Prop :=
  s.address_matrix.length = s.num_locations ∧
  (∀ row ∈ s.address_matrix, row.length = s.address_dimension) ∧
  s.memory_matrix.length = s.num_locations ∧
  (∀ row ∈ s.memory_matrix, row.length = s.memory_dimension)

instance (s : KanervaSDM) : Decidable s.WF := by
  unfold KanervaSDM.WF
  infer_instance

/-- Every trace entry is zero (fresh store, or store just erased). -/
def KanervaSDM.ZeroTrace (s : KanervaSDM) : Prop :=
  ∀ row ∈ s.memory_matrix, ∀ v ∈ row, v = 0

instance (s : KanervaSDM) : Decidable s.ZeroTrace := by
  unfold KanervaSDM.ZeroTrace
  infer_instance

/-- The vector `read` returns when validation passes and the activation
set is non-empty: the elementwise sum of the activated trace rows,
thresholded at zero. -/
def readResult (s : KanervaSDM) (x : List Int) : List Int :=
  ((s.activatedLocations x).foldl
      (fun acc i => vecAdd acc (s.memory_matrix.getD i []))
      (List.replicate s.memory_dimension 0)).map
    (fun v => if 0 ≤ v then (1 : Int) else 0)

/-- Spec-side description of the read sum: the elementwise sum `s` of the
activated trace rows, taken at position `p`. -/
def rowSumAt (s : KanervaSDM) (x : List Int) (p : Nat) : Int :=
  ((s.activatedLocations x).map
    (fun i => (s.memory_matrix.getD i []).getD p 0)).sum

/-- Small concrete store for witnesses: `N = U = 2`, `M = 2`, `H = 2`
(every hard location activates at every address), all-zero trace. -/
def sampleStore : KanervaSDM :=
  { address_dimension := 2
    memory_dimension := 2
    num_locations := 2
    activation_threshold := 2
    address_matrix := [[0, 0], [1, 1]]
    memory_matrix := [[0, 0], [0, 0]]
    memory_count := 0 }

/-- Store `sampleStore` with threshold 0: the address `[0, 1]` is at Hamming
distance 1 from both hard locations, so it activates none of them. -/
def sampleStoreH0 : KanervaSDM :=
  { sampleStore with activation_threshold := 0 }

/-- Store `sampleStore` with threshold 1, for the monotonicity witness. -/
def sampleStoreH1 : KanervaSDM :=
  { sampleStore with activation_threshold := 1 }

/-- Store `sampleStore` with a non-trivial trace table, for the read-decode
witness. -/
def sampleStoreT : KanervaSDM :=
  { sampleStore with memory_matrix := [[5, -3], [0, 2]] }

/-! ### List helper lemmas -/

theorem vecAdd_length (a b : List Int) :
    (vecAdd a b).length = min a.length b.length := by
  simp [vecAdd]

theorem getD_vecAdd (a b : List Int) (p : Nat)
    (hpa : p < a.length) (hpb : p < b.length) :
    (vecAdd a b).getD p 0 = a.getD p 0 + b.getD p 0 := by
  induction a generalizing b p with
  | nil => simp at hpa
  | cons x xs ih =>
    cases b with
    | nil => simp at hpb
    | cons y ys =>
      cases p with
      | zero => simp [vecAdd]
      | succ q =>
        simp only [List.length_cons, Nat.succ_lt_succ_iff] at hpa hpb
        simpa [vecAdd] using ih ys q hpa hpb

theorem getD_list_map (f : Int → Int) (l : List Int) (p : Nat)
    (hp : p < l.length) (d d' : Int) :
    (l.map f).getD p d = f (l.getD p d') := by
  induction l generalizing p with
  | nil => simp at hp
  | cons x xs ih =>
    cases p with
    | zero => simp
    | succ q =>
      simp only [List.length_cons, Nat.succ_lt_succ_iff] at hp
      simpa using ih q hp

theorem getD_list_replicate (n p : Nat) (c d : Int) (hp : p < n) :
    (List.replicate n c).getD p d = c := by
  induction n generalizing p with
  | zero => omega
  | succ m ih =>
    cases p with
    | zero => simp [List.replicate]
    | succ q =>
      simp only [Nat.succ_lt_succ_iff] at hp
      simpa [List.replicate] using ih q hp

theorem getD_list_mem {α : Type} (l : List α) (p : Nat) (hp : p < l.length)
    (d : α) : l.getD p d ∈ l := by
  induction l generalizing p with
  | nil => simp at hp
  | cons x xs ih =>
    cases p with
    | zero => simp
    | succ q =>
      simp only [List.length_cons, Nat.succ_lt_succ_iff] at hp
      exact List.mem_cons_of_mem x (ih q hp)

theorem list_ext_getD (a b : List Int) (hlen : a.length = b.length)
    (h : ∀ p, p < a.length → a.getD p 0 = b.getD p 0) : a = b := by
  induction a generalizing b with
  | nil =>
    cases b with
    | nil => rfl
    | cons y ys => simp at hlen
  | cons x xs ih =>
    cases b with
    | nil => simp at hlen
    | cons y ys =>
      have h0 : x = y := by simpa using h 0 (by simp)
      have htail : xs = ys := by
        refine ih ys (by simpa using hlen) ?_
        intro p hp
        simpa using h (p + 1) (by simpa using Nat.succ_lt_succ hp)
      rw [h0, htail]

theorem list_sum_map_const (l : List Nat) (c : Int) :
    (l.map (fun _ => c)).sum = l.length * c := by
  induction l with
  | nil => simp
  | cons x xs ih => simp [ih]; ring

/-! ### Lemmas about the embedded operations -/

theorem validate_vector_eq_none (v : List Int) (e : Nat) :
    validate_vector v e = none ↔ v.length = e ∧ isBinaryList v = true := by
  unfold validate_vector
  by_cases h1 : v.length = e <;> by_cases h2 : isBinaryList v <;>
    simp [h1, h2]

theorem mem_activatedLocations (s : KanervaSDM) (x : List Int) (i : Nat) :
    i ∈ s.activatedLocations x ↔
      i < s.address_matrix.length ∧
        (hammingDistance (s.address_matrix.getD i []) x : Int)
          ≤ s.activation_threshold := by
  simp [KanervaSDM.activatedLocations, List.mem_filter, List.mem_range]

theorem addToRows_length (rows : List (List Int)) (act : List Nat)
    (polar : List Int) (idx : Nat) :
    (addToRows rows act polar idx).length = rows.length := by
  induction rows generalizing idx with
  | nil => rfl
  | cons r rs ih => simp [addToRows, ih]

theorem getD_addToRows (rows : List (List Int)) (act : List Nat)
    (polar : List Int) (idx j : Nat) (hj : j < rows.length) :
    (addToRows rows act polar idx).getD j [] =
      if (idx + j) ∈ act then vecAdd (rows.getD j []) polar
      else rows.getD j [] := by
  induction rows generalizing idx j with
  | nil => simp at hj
  | cons r rs ih =>
    cases j with
    | zero => simp [addToRows]
    | succ q =>
      simp only [List.length_cons, Nat.succ_lt_succ_iff] at hj
      have := ih (idx + 1) q hj
      simp only [addToRows, List.getD_cons_succ]
      rw [this]
      have harith : idx + 1 + q = idx + (q + 1) := by omega
      rw [harith]

theorem addToRows_nil_act (rows : List (List Int)) (polar : List Int)
    (idx : Nat) : addToRows rows [] polar idx = rows := by
  induction rows generalizing idx with
  | nil => rfl
  | cons r rs ih => simp [addToRows, ih]

theorem foldl_vecAdd_length (row : Nat → List Int) (l : List Nat)
    (a : List Int) (U : Nat) (ha : a.length = U)
    (hrow : ∀ i ∈ l, (row i).length = U) :
    (l.foldl (fun acc i => vecAdd acc (row i)) a).length = U := by
  induction l generalizing a with
  | nil => simpa using ha
  | cons i t ih =>
    simp only [List.foldl_cons]
    refine ih (vecAdd a (row i)) ?_ ?_
    · rw [vecAdd_length, ha, hrow i (by simp)]
      simp
    · intro j hj
      exact hrow j (List.mem_cons_of_mem i hj)

theorem getD_foldl_vecAdd (row : Nat → List Int) (l : List Nat)
    (a : List Int) (U : Nat) (ha : a.length = U)
    (hrow : ∀ i ∈ l, (row i).length = U) (p : Nat) (hp : p < U) :
    (l.foldl (fun acc i => vecAdd acc (row i)) a).getD p 0 =
      a.getD p 0 + (l.map (fun i => (row i).getD p 0)).sum := by
  induction l generalizing a with
  | nil => simp
  | cons i t ih =>
    simp only [List.foldl_cons, List.map_cons, List.sum_cons]
    have hlenri : (row i).length = U := hrow i (by simp)
    have hstep : (vecAdd a (row i)).getD p 0 = a.getD p 0 + (row i).getD p 0 :=
      getD_vecAdd a (row i) p (by omega) (by omega)
    have hrec := ih (vecAdd a (row i))
      (by rw [vecAdd_length, ha, hlenri]; simp)
      (fun j hj => hrow j (List.mem_cons_of_mem i hj))
    rw [hrec, hstep]
    ring

theorem read_valid_empty (s : KanervaSDM) (x : List Int)
    (hv : validate_vector x s.address_dimension = none)
    (hact : s.activatedLocations x = []) :
    s.read x = .ok (List.replicate s.memory_dimension 0) := by
  simp [KanervaSDM.read, hv, hact]

theorem read_valid_nonempty (s : KanervaSDM) (x : List Int)
    (hv : validate_vector x s.address_dimension = none)
    (hact : s.activatedLocations x ≠ []) :
    s.read x = .ok
      (((s.activatedLocations x).foldl
          (fun acc i => vecAdd acc (s.memory_matrix.getD i []))
          (List.replicate s.memory_dimension 0)).map
        (fun v => if 0 ≤ v then (1 : Int) else 0)) := by
  have hne : (s.activatedLocations x).isEmpty = false := by
    cases h : s.activatedLocations x with
    | nil => exact absurd h hact
    | cons a t => rfl
  simp [KanervaSDM.read, hv, hne]

theorem write_valid (s : KanervaSDM) (x w : List Int)
    (hvx : validate_vector x s.address_dimension = none)
    (hvw : validate_vector w s.memory_dimension = none) :
    s.write x w = .ok
      { s with
        memory_matrix :=
          addToRows s.memory_matrix (s.activatedLocations x)
            (w.map (fun b => 2 * b - 1)) 0
        memory_count := s.memory_count + 1 } := by
  simp [KanervaSDM.write, hvx, hvw]

theorem activated_lt_mm_length (s : KanervaSDM) (hWF : s.WF) (x : List Int)
    (i : Nat) (hi : i ∈ s.activatedLocations x) :
    i < s.memory_matrix.length := by
  obtain ⟨hA, _, hM, _⟩ := hWF
  have := (mem_activatedLocations s x i).mp hi
  omega

theorem wf_row_length (s : KanervaSDM) (hWF : s.WF) (i : Nat)
    (hi : i < s.memory_matrix.length) :
    (s.memory_matrix.getD i []).length = s.memory_dimension :=
  hWF.2.2.2 _ (getD_list_mem s.memory_matrix i hi [])

theorem zeroTrace_row_getD (s : KanervaSDM) (hzero : s.ZeroTrace) (i : Nat)
    (hi : i < s.memory_matrix.length) (p : Nat)
    (hp : p < (s.memory_matrix.getD i []).length) :
    (s.memory_matrix.getD i []).getD p 0 = 0 :=
  hzero _ (getD_list_mem s.memory_matrix i hi [])
    _ (getD_list_mem (s.memory_matrix.getD i []) p hp 0)

/-- On a store whose trace table is all zeros, a valid read with a
non-empty activation set returns the all-ones vector: every per-position
sum is exactly zero, and a zero sum decodes to bit 1. -/
theorem read_zeroTrace_allOnes (s : KanervaSDM) (hWF : s.WF)
    (hzero : s.ZeroTrace) (x : List Int)
    (hv : validate_vector x s.address_dimension = none)
    (hact : s.activatedLocations x ≠ []) :
    s.read x = .ok (List.replicate s.memory_dimension 1) := by
  rw [read_valid_nonempty s x hv hact]
  congr 1
  have hrowlen : ∀ i ∈ s.activatedLocations x,
      (s.memory_matrix.getD i []).length = s.memory_dimension := fun i hi =>
    wf_row_length s hWF i (activated_lt_mm_length s hWF x i hi)
  have hfoldlen :
      ((s.activatedLocations x).foldl
        (fun acc i => vecAdd acc (s.memory_matrix.getD i []))
        (List.replicate s.memory_dimension 0)).length = s.memory_dimension :=
    foldl_vecAdd_length _ _ _ s.memory_dimension (by simp) hrowlen
  refine list_ext_getD _ _
    (by rw [List.length_map, hfoldlen, List.length_replicate]) ?_
  intro p hp
  rw [List.length_map, hfoldlen] at hp
  rw [getD_list_map _ _ p (by rw [hfoldlen]; exact hp) _ 0]
  rw [getD_foldl_vecAdd _ _ _ s.memory_dimension (by simp) hrowlen p hp]
  have hmapzero : (s.activatedLocations x).map
      (fun i => (s.memory_matrix.getD i []).getD p 0) =
      (s.activatedLocations x).map (fun _ => (0 : Int)) := by
    refine List.map_congr_left ?_
    intro i hi
    exact zeroTrace_row_getD s hzero i (activated_lt_mm_length s hWF x i hi) p
      (by rw [hrowlen i hi]; exact hp)
  rw [hmapzero, list_sum_map_const]
  rw [getD_list_replicate _ _ _ _ hp, getD_list_replicate _ _ _ _ hp]
  simp

theorem isBinaryList_getD (v : List Int) (hb : isBinaryList v = true)
    (p : Nat) (hp : p < v.length) : v.getD p 0 = 0 ∨ v.getD p 0 = 1 := by
  have hm := getD_list_mem v p hp 0
  simp only [isBinaryList, List.all_eq_true, Bool.or_eq_true, beq_iff_eq] at hb
  exact hb _ hm

theorem activatedLocations_congr (s s' : KanervaSDM)
    (hA : s'.address_matrix = s.address_matrix)
    (hH : s'.activation_threshold = s.activation_threshold) (x : List Int) :
    s'.activatedLocations x = s.activatedLocations x := by
  simp [KanervaSDM.activatedLocations, hA, hH]

/-- After a valid write on a zero-trace store, every activated trace row
equals the polar encoding of the written memory vector at every position. -/
theorem written_row_getD (s : KanervaSDM) (hWF : s.WF) (hzero : s.ZeroTrace)
    (x w : List Int) (hwlen : w.length = s.memory_dimension)
    (i : Nat) (hi : i ∈ s.activatedLocations x) (p : Nat)
    (hp : p < s.memory_dimension) :
    ((addToRows s.memory_matrix (s.activatedLocations x)
        (w.map (fun b => 2 * b - 1)) 0).getD i []).getD p 0 =
      2 * w.getD p 0 - 1 := by
  have hilt : i < s.memory_matrix.length := activated_lt_mm_length s hWF x i hi
  have hrowlen := wf_row_length s hWF i hilt
  have hpolarlen : (w.map (fun b => 2 * b - 1)).length = s.memory_dimension := by
    rw [List.length_map, hwlen]
  rw [getD_addToRows _ _ _ 0 i hilt]
  rw [if_pos (by simpa using hi)]
  rw [getD_vecAdd _ _ p (by omega) (by omega)]
  rw [zeroTrace_row_getD s hzero i hilt p (by omega)]
  rw [getD_list_map _ _ p (by omega) 0 0]
  ring

/-- After a valid write on a zero-trace store, every activated trace row
has length `memory_dimension`. -/
theorem written_row_length (s : KanervaSDM) (hWF : s.WF)
    (x w : List Int) (hwlen : w.length = s.memory_dimension)
    (i : Nat) (hi : i ∈ s.activatedLocations x) :
    ((addToRows s.memory_matrix (s.activatedLocations x)
        (w.map (fun b => 2 * b - 1)) 0).getD i []).length =
      s.memory_dimension := by
  have hilt : i < s.memory_matrix.length := activated_lt_mm_length s hWF x i hi
  have hrowlen := wf_row_length s hWF i hilt
  rw [getD_addToRows _ _ _ 0 i hilt]
  rw [if_pos (by simpa using hi)]
  rw [vecAdd_length, hrowlen, List.length_map, hwlen]
  simp

/-- Decoding the fold of rows that all equal the polar encoding of a
binary vector `w` recovers `w`, provided at least one row is summed. -/
theorem map_decode_fold_eq (act : List Nat) (mm2 : List (List Int))
    (w : List Int) (U : Nat) (hwlen : w.length = U)
    (hrowlen : ∀ i ∈ act, (mm2.getD i []).length = U)
    (hrowval : ∀ i ∈ act, ∀ p, p < U →
      (mm2.getD i []).getD p 0 = 2 * w.getD p 0 - 1)
    (hwbin : isBinaryList w = true) (hact : act ≠ []) :
    (act.foldl (fun acc i => vecAdd acc (mm2.getD i []))
        (List.replicate U 0)).map (fun v => if 0 ≤ v then (1 : Int) else 0)
      = w := by
  have hfoldlen :
      (act.foldl (fun acc i => vecAdd acc (mm2.getD i []))
        (List.replicate U 0)).length = U :=
    foldl_vecAdd_length _ _ _ U (by simp) hrowlen
  refine list_ext_getD _ _ (by rw [List.length_map, hfoldlen, hwlen]) ?_
  intro p hp
  rw [List.length_map, hfoldlen] at hp
  rw [getD_list_map _ _ p (by rw [hfoldlen]; exact hp) _ 0]
  rw [getD_foldl_vecAdd _ _ _ U (by simp) hrowlen p hp]
  have hmappolar : act.map (fun i => (mm2.getD i []).getD p 0) =
      act.map (fun _ => 2 * w.getD p 0 - 1) := by
    refine List.map_congr_left ?_
    intro i hi
    exact hrowval i hi p hp
  rw [hmappolar, list_sum_map_const]
  rw [getD_list_replicate _ _ _ _ hp]
  have hk : 1 ≤ (act.length : Int) := by
    have : 0 < act.length := List.length_pos.mpr hact
    omega
  rcases isBinaryList_getD w hwbin p (by omega) with h0 | h1
  · rw [h0]
    have hneg : ¬ (0 : Int) ≤ 0 + (act.length : Int) * (2 * 0 - 1) := by
      have : (act.length : Int) * (2 * 0 - 1) = -(act.length : Int) := by ring
      rw [this]
      omega
    rw [if_neg hneg]
  · rw [h1]
    have hpos : (0 : Int) ≤ 0 + (act.length : Int) * (2 * 1 - 1) := by
      have : (act.length : Int) * (2 * 1 - 1) = (act.length : Int) := by ring
      rw [this]
      omega
    rw [if_pos hpos]

/-- C2: writing a valid memory vector `w` at a valid address `x` on a
zero-trace store and then reading back at `x` returns exactly `w`,
provided at least one hard location activates at `x`. -/
theorem write_then_read_roundtrip (s : KanervaSDM) (hWF : s.WF)
    (hzero : s.ZeroTrace) (x w : List Int)
    (hxlen : x.length = s.address_dimension) (hxbin : isBinaryList x = true)
    (hwlen : w.length = s.memory_dimension) (hwbin : isBinaryList w = true)
    (hact : s.activatedLocations x ≠ []) :
    (s.write x w).bind (fun s2 => s2.read x) = .ok w := by
  have hvx : validate_vector x s.address_dimension = none :=
    (validate_vector_eq_none x _).mpr ⟨hxlen, hxbin⟩
  have hvw : validate_vector w s.memory_dimension = none :=
    (validate_vector_eq_none w _).mpr ⟨hwlen, hwbin⟩
  rw [write_valid s x w hvx hvw]
  show KanervaSDM.read
      { s with
        memory_matrix :=
          addToRows s.memory_matrix (s.activatedLocations x)
            (w.map (fun b => 2 * b - 1)) 0
        memory_count := s.memory_count + 1 } x = .ok w
  rw [read_valid_nonempty
    { s with
      memory_matrix :=
        addToRows s.memory_matrix (s.activatedLocations x)
          (w.map (fun b => 2 * b - 1)) 0
      memory_count := s.memory_count + 1 } x hvx hact]
  congr 1
  exact map_decode_fold_eq (s.activatedLocations x)
    (addToRows s.memory_matrix (s.activatedLocations x)
      (w.map (fun b => 2 * b - 1)) 0)
    w s.memory_dimension hwlen
    (fun i hi => written_row_length s hWF x w hwlen i hi)
    (fun i hi p hp => written_row_getD s hWF hzero x w hwlen i hi p hp)
    hwbin hact

theorem map_zero_replicate (r : List Int) :
    r.map (fun _ => (0 : Int)) = List.replicate r.length 0 := by
  induction r with
  | nil => rfl
  | cons a as ih => simp [List.replicate_succ, ih]

theorem map_rows_zero (mm : List (List Int)) (U : Nat)
    (h : ∀ row ∈ mm, row.length = U) :
    mm.map (fun row => row.map (fun _ => (0 : Int))) =
      List.replicate mm.length (List.replicate U 0) := by
  induction mm with
  | nil => rfl
  | cons r rs ih =>
    simp only [List.map_cons, List.length_cons, List.replicate_succ]
    rw [ih (fun row hrow => h row (List.mem_cons_of_mem r hrow))]
    rw [← h r (by simp), map_zero_replicate r]

theorem erase_memory_WF (s : KanervaSDM) (hWF : s.WF) : s.erase_memory.WF := by
  obtain ⟨h1, h2, h3, h4⟩ := hWF
  refine ⟨h1, h2, ?_, ?_⟩
  · show (s.memory_matrix.map _).length = s.num_locations
    rw [List.length_map]
    exact h3
  · intro row hrow
    simp only [KanervaSDM.erase_memory, List.mem_map] at hrow
    obtain ⟨r, hr, rfl⟩ := hrow
    show (r.map _).length = s.memory_dimension
    rw [List.length_map]
    exact h4 r hr

theorem erase_memory_ZeroTrace (s : KanervaSDM) : s.erase_memory.ZeroTrace := by
  intro row hrow v hv
  simp only [KanervaSDM.erase_memory, List.mem_map] at hrow
  obtain ⟨r, hr, rfl⟩ := hrow
  simp only [List.mem_map] at hv
  obtain ⟨u, hu, h⟩ := hv
  exact h.symm

theorem erase_memory_activated (s : KanervaSDM) (x : List Int) :
    s.erase_memory.activatedLocations x = s.activatedLocations x := rfl

/-! ### The claims -/

/-- C1 (amended): on a store whose trace table is all zeros — as after
construction — and likewise on any well-formed store after
`erase_memory()`, a read at a valid address returns the all-zero vector
of length `U` when the activation set of that address is empty, and the
all-ones vector of length `U` when it is non-empty (every per-position
sum is zero, and a zero sum decodes to bit 1). -/
theorem fresh_or_erased_read (s : KanervaSDM) (hWF : s.WF) (x : List Int)
    (hxlen : x.length = s.address_dimension) (hxbin : isBinaryList x = true) :
    (s.ZeroTrace → s.read x = .ok
      (if s.activatedLocations x = [] then
        List.replicate s.memory_dimension 0
      else List.replicate s.memory_dimension 1)) ∧
    (s.erase_memory).read x = .ok
      (if s.activatedLocations x = [] then
        List.replicate s.memory_dimension 0
      else List.replicate s.memory_dimension 1) := by
  have hv : validate_vector x s.address_dimension = none :=
    (validate_vector_eq_none x _).mpr ⟨hxlen, hxbin⟩
  constructor
  · intro hzero
    by_cases h : s.activatedLocations x = []
    · rw [if_pos h]
      exact read_valid_empty s x hv h
    · rw [if_neg h]
      exact read_zeroTrace_allOnes s hWF hzero x hv h
  · by_cases h : s.activatedLocations x = []
    · rw [if_pos h]
      exact read_valid_empty s.erase_memory x hv
        ((erase_memory_activated s x).trans h)
    · rw [if_neg h]
      exact read_zeroTrace_allOnes s.erase_memory (erase_memory_WF s hWF)
        (erase_memory_ZeroTrace s) x hv
        (fun hc => h ((erase_memory_activated s x).symm.trans hc))

theorem fresh_or_erased_read_witness :
    sampleStore.read [0, 1] = .ok
      (if sampleStore.activatedLocations [0, 1] = [] then
        List.replicate sampleStore.memory_dimension 0
      else List.replicate sampleStore.memory_dimension 1) ∧
    (sampleStore.erase_memory).read [0, 1] = .ok
      (if sampleStore.activatedLocations [0, 1] = [] then
        List.replicate sampleStore.memory_dimension 0
      else List.replicate sampleStore.memory_dimension 1) :=
  ⟨(fresh_or_erased_read sampleStore (by decide) [0, 1] (by decide)
      (by decide)).1 (by decide),
   (fresh_or_erased_read sampleStore (by decide) [0, 1] (by decide)
      (by decide)).2⟩

/-- C1 is false as stated: construct the store with `N = U = M = 1` and
`H = 1` (a valid configuration; the threshold is at least `N`, so the
single hard location activates at every address, whatever bits the
generator drew) and read at the valid address `[0]`: the result is `[1]`,
not the all-zero vector of length `U`. -/
theorem fresh_read_not_all_zero :
    (KanervaSDM.mkStore 1 1 1 1 [[0]]).bind (fun s => s.read [0]) =
      .ok [1] ∧ [(1 : Int)] ≠ List.replicate 1 (0 : Int) :=
  ⟨rfl, by decide⟩

theorem write_then_read_roundtrip_witness :
    (sampleStore.write [0, 0] [1, 0]).bind (fun s2 => s2.read [0, 0]) =
      .ok [1, 0] :=
  write_then_read_roundtrip sampleStore (by decide) (by decide) [0, 0] [1, 0]
    (by decide) (by decide) (by decide) (by decide) (by decide)

/-- C3: at a valid address whose activation set is non-empty, `read`
succeeds and returns the vector whose bit at every position `p` is 1
exactly when the elementwise sum of the activated trace rows at `p` is
non-negative; in particular a sum of exactly zero decodes to bit 1. -/
theorem read_decodes_row_sums (s : KanervaSDM) (hWF : s.WF) (x : List Int)
    (hxlen : x.length = s.address_dimension) (hxbin : isBinaryList x = true)
    (hact : s.activatedLocations x ≠ []) (p : Nat)
    (hp : p < s.memory_dimension) :
    s.read x = .ok (readResult s x) ∧
    (readResult s x).length = s.memory_dimension ∧
    (readResult s x).getD p 0 =
      (if 0 ≤ rowSumAt s x p then (1 : Int) else 0) ∧
    (rowSumAt s x p = 0 → (readResult s x).getD p 0 = 1) := by
  have hv : validate_vector x s.address_dimension = none :=
    (validate_vector_eq_none x _).mpr ⟨hxlen, hxbin⟩
  have hrowlen : ∀ i ∈ s.activatedLocations x,
      (s.memory_matrix.getD i []).length = s.memory_dimension := fun i hi =>
    wf_row_length s hWF i (activated_lt_mm_length s hWF x i hi)
  have hfoldlen :
      ((s.activatedLocations x).foldl
        (fun acc i => vecAdd acc (s.memory_matrix.getD i []))
        (List.replicate s.memory_dimension 0)).length = s.memory_dimension :=
    foldl_vecAdd_length _ _ _ s.memory_dimension (by simp) hrowlen
  have hlen : (readResult s x).length = s.memory_dimension := by
    unfold readResult
    rw [List.length_map]
    exact hfoldlen
  have hgetD : (readResult s x).getD p 0 =
      (if 0 ≤ rowSumAt s x p then (1 : Int) else 0) := by
    unfold readResult rowSumAt
    rw [getD_list_map _ _ p (by rw [hfoldlen]; exact hp) _ 0]
    rw [getD_foldl_vecAdd _ _ _ s.memory_dimension (by simp) hrowlen p hp]
    rw [getD_list_replicate _ _ _ _ hp, zero_add]
  refine ⟨?_, hlen, hgetD, ?_⟩
  · rw [read_valid_nonempty s x hv hact]
    rfl
  · intro h
    rw [hgetD, h]
    simp

theorem read_decodes_row_sums_witness :
    (sampleStoreT.read [0, 0] = .ok (readResult sampleStoreT [0, 0]) ∧
      (readResult sampleStoreT [0, 0]).getD 1 0 =
        (if 0 ≤ rowSumAt sampleStoreT [0, 0] 1 then (1 : Int) else 0)) ∧
    (readResult sampleStore [0, 0]).getD 0 0 = 1 :=
  ⟨⟨(read_decodes_row_sums sampleStoreT (by decide) [0, 0] (by decide)
        (by decide) (by decide) 1 (by decide)).1,
    (read_decodes_row_sums sampleStoreT (by decide) [0, 0] (by decide)
        (by decide) (by decide) 1 (by decide)).2.2.1⟩,
   (read_decodes_row_sums sampleStore (by decide) [0, 0] (by decide)
        (by decide) (by decide) 0 (by decide)).2.2.2 (by decide)⟩

/-- C4: at a valid address whose activation set is empty, `read` succeeds
(no error) and returns the all-zero vector of length `U`. -/
theorem read_empty_activation (s : KanervaSDM) (x : List Int)
    (hxlen : x.length = s.address_dimension) (hxbin : isBinaryList x = true)
    (hact : s.activatedLocations x = []) :
    s.read x = .ok (List.replicate s.memory_dimension 0) :=
  read_valid_empty s x ((validate_vector_eq_none x _).mpr ⟨hxlen, hxbin⟩) hact

theorem read_empty_activation_witness :
    sampleStoreH0.read [0, 1] =
      .ok (List.replicate sampleStoreH0.memory_dimension 0) :=
  read_empty_activation sampleStoreH0 [0, 1] (by decide) (by decide)
    (by decide)

/-- C5: a valid write at an address whose activation set is empty leaves
every entry of the trace table (and every other field of the store except
the stored-count) unchanged, and still increments the stored-count by
exactly 1. -/
theorem write_empty_activation (s : KanervaSDM) (x w : List Int)
    (hxlen : x.length = s.address_dimension) (hxbin : isBinaryList x = true)
    (hwlen : w.length = s.memory_dimension) (hwbin : isBinaryList w = true)
    (hact : s.activatedLocations x = []) :
    s.write x w = .ok { s with memory_count := s.memory_count + 1 } := by
  have hvx : validate_vector x s.address_dimension = none :=
    (validate_vector_eq_none x _).mpr ⟨hxlen, hxbin⟩
  have hvw : validate_vector w s.memory_dimension = none :=
    (validate_vector_eq_none w _).mpr ⟨hwlen, hwbin⟩
  rw [write_valid s x w hvx hvw, hact, addToRows_nil_act]

theorem write_empty_activation_witness :
    sampleStoreH0.write [0, 1] [1, 1] =
      .ok { sampleStoreH0 with
            memory_count := sampleStoreH0.memory_count + 1 } :=
  write_empty_activation sampleStoreH0 [0, 1] [1, 1] (by decide) (by decide)
    (by decide) (by decide) (by decide)

/-- C6: construction fails with `InvalidConfiguration` exactly when `N`,
`U` or `M` is not positive or `H` is negative; for all valid parameters
it succeeds, allocating a zero trace table of shape `M × U`, the drawn
address table, and a stored-count of 0.  A failed construction returns
only the error: no partial store is allocated. -/
theorem mkStore_validation (N U M H : Int) (A : List (List Int)) :
    ((N ≤ 0 ∨ U ≤ 0 ∨ M ≤ 0 ∨ H < 0) →
      KanervaSDM.mkStore N U M H A = .error .invalidConfiguration) ∧
    (0 < N → 0 < U → 0 < M → 0 ≤ H →
      KanervaSDM.mkStore N U M H A = .ok
        { address_dimension := N.toNat
          memory_dimension := U.toNat
          num_locations := M.toNat
          activation_threshold := H
          address_matrix := A
          memory_matrix :=
            List.replicate M.toNat (List.replicate U.toNat 0)
          memory_count := 0 }) := by
  constructor
  · intro h
    unfold KanervaSDM.mkStore
    by_cases h1 : N ≤ 0 ∨ U ≤ 0 ∨ M ≤ 0
    · rw [if_pos h1]
    · rw [if_neg h1, if_pos (by omega)]
  · intro h1 h2 h3 h4
    unfold KanervaSDM.mkStore
    rw [if_neg (by omega), if_neg (by omega)]

theorem mkStore_validation_witness :
    KanervaSDM.mkStore 0 1 1 0 [[0]] = .error .invalidConfiguration ∧
    KanervaSDM.mkStore 2 2 2 2 [[0, 0], [1, 1]] = .ok
      { address_dimension := (2 : Int).toNat
        memory_dimension := (2 : Int).toNat
        num_locations := (2 : Int).toNat
        activation_threshold := 2
        address_matrix := [[0, 0], [1, 1]]
        memory_matrix :=
          List.replicate (2 : Int).toNat (List.replicate (2 : Int).toNat 0)
        memory_count := 0 } :=
  ⟨(mkStore_validation 0 1 1 0 [[0]]).1 (by decide),
   (mkStore_validation 2 2 2 2 [[0, 0], [1, 1]]).2 (by decide) (by decide)
     (by decide) (by decide)⟩

/-- C7: `write` and `read` fail with `DimensionMismatch` when a supplied
vector has the wrong length and with `NotBinary` when a supplied vector
of the right length contains a value outside {0, 1}; the address is
validated first (shape before content), then the memory vector, exactly
as in `_validate__vector`.  Validation precedes the state update, so a
failing call returns only the error and the trace table and stored-count
are unchanged. -/
theorem write_read_validation_errors (s : KanervaSDM) (x w : List Int) :
    (x.length ≠ s.address_dimension →
      s.write x w = .error .dimensionMismatch ∧
      s.read x = .error .dimensionMismatch) ∧
    (x.length = s.address_dimension → isBinaryList x = false →
      s.write x w = .error .notBinary ∧ s.read x = .error .notBinary) ∧
    (x.length = s.address_dimension → isBinaryList x = true →
      w.length ≠ s.memory_dimension →
      s.write x w = .error .dimensionMismatch) ∧
    (x.length = s.address_dimension → isBinaryList x = true →
      w.length = s.memory_dimension → isBinaryList w = false →
      s.write x w = .error .notBinary) := by
  refine ⟨?_, ?_, ?_, ?_⟩
  · intro h
    constructor <;>
      simp [KanervaSDM.write, KanervaSDM.read, validate_vector, h]
  · intro hlen hbin
    constructor <;>
      simp [KanervaSDM.write, KanervaSDM.read, validate_vector, hlen, hbin]
  · intro hlen hbin hw
    simp [KanervaSDM.write, validate_vector, hlen, hbin, hw]
  · intro hlen hbin hwlen hwbin
    simp [KanervaSDM.write, validate_vector, hlen, hbin, hwlen, hwbin]

theorem write_read_validation_errors_witness :
    (sampleStore.write [0] [1, 0] = .error .dimensionMismatch ∧
      sampleStore.read [0] = .error .dimensionMismatch) ∧
    (sampleStore.write [0, 2] [1, 0] = .error .notBinary ∧
      sampleStore.read [0, 2] = .error .notBinary) ∧
    sampleStore.write [0, 1] [1] = .error .dimensionMismatch ∧
    sampleStore.write [0, 1] [1, 5] = .error .notBinary :=
  ⟨(write_read_validation_errors sampleStore [0] [1, 0]).1 (by decide),
   (write_read_validation_errors sampleStore [0, 2] [1, 0]).2.1 (by decide)
     (by decide),
   (write_read_validation_errors sampleStore [0, 1] [1]).2.2.1 (by decide)
     (by decide) (by decide),
   (write_read_validation_errors sampleStore [0, 1] [1, 5]).2.2.2 (by decide)
     (by decide) (by decide) (by decide)⟩

/-- C8: `erase_memory()` always succeeds: it zeroes every entry of the
trace table (which keeps its `M × U` shape), resets the stored-count to
zero, and leaves the address table unchanged; erasing twice leaves the
store in exactly the state of erasing once. -/
theorem erase_memory_spec (s : KanervaSDM) (hWF : s.WF) :
    (s.erase_memory).memory_matrix =
      List.replicate s.num_locations (List.replicate s.memory_dimension 0) ∧
    (s.erase_memory).memory_count = 0 ∧
    (s.erase_memory).address_matrix = s.address_matrix ∧
    s.erase_memory.erase_memory = s.erase_memory := by
  refine ⟨?_, rfl, rfl, ?_⟩
  · have h := map_rows_zero s.memory_matrix s.memory_dimension hWF.2.2.2
    rw [hWF.2.2.1] at h
    exact h
  · have h : ((s.memory_matrix.map
        (fun row => row.map (fun _ => (0 : Int)))).map
          (fun row => row.map (fun _ => (0 : Int)))) =
        s.memory_matrix.map (fun row => row.map (fun _ => (0 : Int))) := by
      rw [List.map_map]
      refine List.map_congr_left (fun row _ => ?_)
      show ((row.map (fun _ => (0 : Int))).map (fun _ => (0 : Int))) =
        row.map (fun _ => (0 : Int))
      rw [map_zero_replicate, map_zero_replicate row]
      simp
    show ({ s with
            memory_matrix := (s.memory_matrix.map
              (fun row => row.map (fun _ => (0 : Int)))).map
                (fun row => row.map (fun _ => (0 : Int)))
            memory_count := 0 } : KanervaSDM) =
      { s with
        memory_matrix := s.memory_matrix.map
          (fun row => row.map (fun _ => (0 : Int)))
        memory_count := 0 }
    rw [h]

theorem erase_memory_spec_witness :
    (sampleStoreT.erase_memory).memory_matrix =
      List.replicate sampleStoreT.num_locations
        (List.replicate sampleStoreT.memory_dimension 0) ∧
    (sampleStoreT.erase_memory).memory_count = 0 ∧
    (sampleStoreT.erase_memory).address_matrix =
      sampleStoreT.address_matrix ∧
    sampleStoreT.erase_memory.erase_memory = sampleStoreT.erase_memory :=
  erase_memory_spec sampleStoreT (by decide)

/-- C9: for a fixed address table, the activation set computed with a
threshold `H` is contained in the activation set computed with any
threshold `H' ≥ H`: every location activated at `H` is activated at
`H'`. -/
theorem activation_monotone (s s' : KanervaSDM)
    (hA : s'.address_matrix = s.address_matrix)
    (hH : s.activation_threshold ≤ s'.activation_threshold)
    (x : List Int) (i : Nat) (hi : i ∈ s.activatedLocations x) :
    i ∈ s'.activatedLocations x := by
  rw [mem_activatedLocations] at hi ⊢
  rw [hA]
  exact ⟨hi.1, le_trans hi.2 hH⟩

theorem activation_monotone_witness :
    0 ∈ sampleStore.activatedLocations [0, 0] :=
  activation_monotone sampleStoreH1 sampleStore (by decide) (by decide)
    [0, 0] 0 (by decide)

/-- C10: on a store whose trace table is all zeros, a read at a valid
address with a non-empty activation set returns the all-ones vector of
length `U`: every per-position sum of the activated (all-zero) trace rows
is exactly zero, and a zero sum decodes to bit 1. -/
theorem zero_trace_read_all_ones (s : KanervaSDM) (hWF : s.WF)
    (hzero : s.ZeroTrace) (x : List Int)
    (hxlen : x.length = s.address_dimension) (hxbin : isBinaryList x = true)
    (hact : s.activatedLocations x ≠ []) :
    s.read x = .ok (List.replicate s.memory_dimension 1) :=
  read_zeroTrace_allOnes s hWF hzero x
    ((validate_vector_eq_none x _).mpr ⟨hxlen, hxbin⟩) hact

theorem zero_trace_read_all_ones_witness :
    sampleStore.read [1, 0] =
      .ok (List.replicate sampleStore.memory_dimension 1) :=
  zero_trace_read_all_ones sampleStore (by decide) (by decide) [1, 0]
    (by decide) (by decide) (by decide)
